import Mathlib

/-!
# Orbit Resilient Learning Hub — verification of the identity/authorization
core and the offline-tolerant reconciliation engine.

Shallow embedding of:
* `src/orbit/src/lib/auth/jwt.ts` — token generation / verification / header
  extraction (the `jsonwebtoken` library calls are modelled by an idealized
  MAC whose signature records the signing secret and the signed payload);
* `src/orbit/src/lib/error-handler.ts` (rbac part) — `hasPermission`,
  `hasMinimumRole`, `canModifyResource`, `withRole` gateway stages;
* `src/orbit/src/app/api/progress/route.ts` — the `POST` sync handler
  (validation, ownership check, `prisma.progress.upsert`);
* `src/orbit/src/app/api/users/enroll/route.ts` — the transactional
  enrollment workflow (`prisma.$transaction` with user upsert and
  create-only progress upserts).

Storage is modelled as explicit list-backed tables with the Prisma upsert
semantics on the declared unique keys; `prisma.$transaction` is modelled as
commit-on-success / discard-on-error of the state produced by the
transaction body, with injectable storage faults.
-/

namespace Orbit

/-- The `UserRole` enum from the Prisma schema
(`migrations/20260219102237_add_user_roles`). -/
inductive UserRole where
  | STUDENT
  | TEACHER
  | ADMIN
deriving DecidableEq, Repr

/-- Rendering of a role as the string Prisma/TypeScript uses, needed for the
message built by `withRole`. -/
def UserRole.toString : UserRole → String
  | .STUDENT => "STUDENT"
  | .TEACHER => "TEACHER"
  | .ADMIN => "ADMIN"

/-- A row of the `User` table (`migration.sql`): id (CUID), name, email
(unique key), bcrypt password hash, role (default `STUDENT`). `createdAt` is
not carried because no verified property mentions it. -/
structure User where
  id : String
  name : String
  email : String
  password : String
  role : UserRole
deriving DecidableEq, Repr

/-- A row of the `Progress` table: unique composite key `(userId, lessonId)`,
`completed` boolean, nullable integer `score`, server-assigned `updatedAt`
(modelled as a `Nat` timestamp). -/
structure ProgressRecord where
  userId : String
  lessonId : String
  completed : Bool
  score : Option Int
  updatedAt : Nat
deriving DecidableEq, Repr

/-- The storage state: the three tables touched by the verified routes.
Lessons are carried as their ids only (the enroll route selects
`{ id: true }`). -/
structure DB where
  users : List User
  lessons : List String
  progress : List ProgressRecord
deriving DecidableEq, Repr

/-- Whether a progress row matches the composite key. -/
def keyMatches (u l : String) (r : ProgressRecord) : Bool :=
  r.userId == u && r.lessonId == l

/-- `prisma.progress.findUnique` on the composite key `userId_lessonId`. -/
def findProgress (db : DB) (u l : String) : Option ProgressRecord :=
  db.progress.find? (keyMatches u l)

/-- `prisma.progress.upsert` as issued by `POST /api/progress`
(`progress/route.ts` lines 171-206): the `update` branch unconditionally
replaces `completed` and `score` and sets `updatedAt` to the server's
receive time; the `create` branch inserts the submitted values (Prisma's
`@updatedAt` stamps the new row with the same receive time). -/
def progressUpsertReplace (db : DB) (u l : String) (completed : Bool)
    (score : Option Int) (now : Nat) : DB :=
  match findProgress db u l with
  | some _ =>
      { db with progress := db.progress.map (fun r =>
          if keyMatches u l r then
            { r with completed := completed, score := score, updatedAt := now }
          else r) }
  | none =>
      { db with progress := db.progress ++ [⟨u, l, completed, score, now⟩] }

/-- `prisma.progress.upsert` as issued by the enroll transaction
(`users/enroll/route.ts` lines 85-102): the `update` branch is empty — the
route's comment reads "Don't overwrite existing progress data / Keep
completed and score as they are" — so an existing row keeps `completed` and
`score` (only the `@updatedAt` column is stamped); the `create` branch
initializes `completed = false`, `score = null`. -/
def progressUpsertKeep (db : DB) (u l : String) (now : Nat) : DB :=
  match findProgress db u l with
  | some _ =>
      { db with progress := db.progress.map (fun r =>
          if keyMatches u l r then { r with updatedAt := now } else r) }
  | none =>
      { db with progress := db.progress ++ [⟨u, l, false, none, now⟩] }

/-- `prisma.user.upsert` on the natural key `email` as issued by the enroll
transaction (`users/enroll/route.ts` lines 61-72): if a user with the email
exists, update `name` and `password` (role untouched); else create with the
schema's default role `STUDENT`. `newId` is the CUID the storage engine
would mint for a fresh row. Returns the resulting user together with the
new state. -/
def userUpsertByEmail (db : DB) (newId name email hashedPassword : String) :
    User × DB :=
  match db.users.find? (fun u => u.email == email) with
  | some u =>
      let u' := { u with name := name, password := hashedPassword }
      (u', { db with users := db.users.map (fun v =>
              if v.email == email then { v with name := name, password := hashedPassword } else v) })
  | none =>
      let u : User := ⟨newId, name, email, hashedPassword, UserRole.STUDENT⟩
      (u, { db with users := db.users ++ [u] })

/-! ## Capability Evaluator (`lib/auth/rbac` part of `error-handler.ts`) -/

/-- `hasPermission(userRole, allowedRoles)`: `allowedRoles.includes(userRole)`. -/
def hasPermission (userRole : UserRole) (allowedRoles : List UserRole) : Bool :=
  allowedRoles.contains userRole

/-- The `ROLE_HIERARCHY` lookup table: higher index, more privileges. -/
def ROLE_HIERARCHY : UserRole → Nat
  | .STUDENT => 0
  | .TEACHER => 1
  | .ADMIN => 2

/-- `hasMinimumRole(userRole, minimumRole)`:
`ROLE_HIERARCHY[userRole] >= ROLE_HIERARCHY[minimumRole]`. -/
def hasMinimumRole (userRole minimumRole : UserRole) : Bool :=
  ROLE_HIERARCHY minimumRole ≤ ROLE_HIERARCHY userRole

/-- `canModifyResource(authenticatedUserId, resourceOwnerId, userRole)`:
true when the user owns the resource, or when the user is an ADMIN. -/
def canModifyResource (authenticatedUserId resourceOwnerId : String)
    (userRole : UserRole) : Bool :=
  if authenticatedUserId == resourceOwnerId then true
  else if userRole == UserRole.ADMIN then true
  else false

/-! ## Token Service (`lib/auth/jwt.ts`)

`jsonwebtoken`'s `sign`/`verify` are external library calls; they are
modelled with an idealized MAC: a signature is the pair (signing secret,
signed payload), and signature verification is equality with the pair the
verifier recomputes. `jwt.verify` checks, in order: parseability, that the
token's algorithm is among the allowed ones, the signature, and only then
the registered claims (`exp`), throwing `TokenExpiredError` when the clock
is at or past `exp`. -/

/-- The algorithm named in a token's header. The repo pins `HS256` on the
verifier side (`algorithms: ["HS256"]`). -/
inductive Alg where
  | HS256
  | other (name : String)
deriving DecidableEq, Repr

/-- The decoded JWT payload. `userId` and `role` are optional because an
arbitrary (even correctly signed) token need not carry them; `iat`/`exp`
are the registered claims `jwt.sign` adds. -/
structure JWTPayload where
  userId : Option String
  role : Option UserRole
  iat : Nat
  exp : Nat
deriving DecidableEq, Repr

/-- A token string as the verifier sees it: either unparseable, or a
header/payload/signature triple. The signature field of a well-formed token
records the key and payload it was computed over (idealized MAC). -/
inductive TokenWire where
  | malformed (raw : String)
  | token (alg : Alg) (payload : JWTPayload) (sig : String × JWTPayload)
deriving DecidableEq, Repr

/-- The process environment the JWT module reads: `JWT_SECRET` (absent when
unconfigured) and the parsed `JWT_EXPIRES_IN` TTL in seconds (default 1h =
3600). -/
structure JwtEnv where
  secret : Option String
  ttl : Nat
deriving DecidableEq, Repr

/-- `generateToken(userId, role)`: throws (`Except.error`) when `JWT_SECRET`
is unset (`getJWTSecret`); otherwise signs `{userId, role}` with HS256,
`iat = now`, `exp = now + TTL`. -/
def generateToken (env : JwtEnv) (userId : String) (role : UserRole)
    (now : Nat) : Except String TokenWire :=
  match env.secret with
  | none => .error "JWT_SECRET is not configured. Please add it to .env.local"
  | some s =>
      let payload : JWTPayload := ⟨some userId, some role, now, now + env.ttl⟩
      .ok (.token .HS256 payload (s, payload))

/-- The distinguished failure causes of the underlying `jwt.verify` call
(`JsonWebTokenError` for malformed tokens, disallowed algorithms and bad
signatures, `TokenExpiredError` for expired ones). -/
inductive VerifyError where
  | malformed
  | invalidAlgorithm
  | invalidSignature
  | expired
deriving DecidableEq, Repr

/-- The `jwt.verify(token, secret, − algorithms: ["HS256"] −)` call as the
repo issues it: parse, require HS256, check the signature, then fail with
`expired` when the verification clock is at or past `exp`. -/
def jwtVerifyCore (secret : String) (tok : TokenWire) (now : Nat) :
    Except VerifyError JWTPayload :=
  match tok with
  | .malformed _ => .error .malformed
  | .token alg payload sig =>
      if alg ≠ .HS256 then .error .invalidAlgorithm
      else if sig ≠ (secret, payload) then .error .invalidSignature
      else if payload.exp ≤ now then .error .expired
      else .ok payload

/-- The payload `verifyToken` hands back after its presence checks: the
TypeScript `JWTPayload` interface with `userId` and `role` known present. -/
structure VerifiedClaims where
  userId : String
  role : UserRole
  iat : Nat
  exp : Nat
deriving DecidableEq, Repr

/-- `verifyToken(token)`: wraps `jwt.verify` in a try/catch that collapses
every failure (including the unconfigured-secret throw of `getJWTSecret`)
to `null`; a decoded payload is additionally rejected when `userId` or
`role` is falsy (absent — or, for `userId`, the empty string). -/
def verifyToken (env : JwtEnv) (tok : TokenWire) (now : Nat) :
    Option VerifiedClaims :=
  match env.secret with
  | none => none
  | some s =>
      match jwtVerifyCore s tok now with
      | .error _ => none
      | .ok decoded =>
          match decoded.userId, decoded.role with
          | some uid, some r =>
              if uid = "" then none else some ⟨uid, r, decoded.iat, decoded.exp⟩
          | _, _ => none

/-- JavaScript `s.split(" ")` on the character list of `s`: fields between
single-space separators, so `"" ↦ [""]`, `"a b" ↦ ["a","b"]`,
`"a " ↦ ["a",""]`. -/
def splitOnSpace : List Char → List (List Char)
  | [] => [[]]
  | c :: rest =>
      if c = ' ' then [] :: splitOnSpace rest
      else
        match splitOnSpace rest with
        | [] => [[c]]
        | w :: ws => (c :: w) :: ws

/-- `extractTokenFromHeader(authHeader)`: `null` for a missing or empty
header (JS falsiness); otherwise split on `" "`, demand exactly two parts
with the first lowercasing to `"bearer"`, and return the second part. -/
def extractTokenFromHeader (authHeader : Option String) : Option String :=
  match authHeader with
  | none => none
  | some h =>
      if h = "" then none
      else
        match splitOnSpace h.data with
        | [p0, p1] =>
            if p0.map Char.toLower = "bearer".data then some (String.mk p1)
            else none
        | _ => none

/-! ## Authorization Gateway (`withAuth` / `withRole`) and response shapes -/

/-- Modelled from the spec: the `apiForbidden` response builder is not part
of the sources under verification (only its call sites are); per the spec it
produces "HTTP 403 with error code `FORBIDDEN` and a message". The builder
receives only a message and a request id, so that is all the body can carry
besides the fixed status and code. -/
structure ForbiddenResponse where
  status : Nat := 403
  code : String := "FORBIDDEN"
  message : String
  requestId : String
deriving DecidableEq, Repr

/-- Outcome of the gateway stages shared by `withAuth` and `withRole`:
the two differentiated 401s, the 403, or the invocation of the wrapped
handler with the verified identity. -/
inductive GatewayResult where
  | missingToken (message : String)
  | invalidToken (message : String)
  | forbidden (resp : ForbiddenResponse)
  | proceed (userId : String) (role : UserRole)
deriving DecidableEq, Repr

/-- The message `withRole` passes to `apiForbidden` on a role miss:
"Access denied. Required role: `allowedRoles.join(" or ")`. Your role:
`payload.role`". -/
def forbiddenRoleMessage (allowedRoles : List UserRole) (userRole : UserRole) :
    String :=
  "Access denied. Required role: "
    ++ String.intercalate " or " (allowedRoles.map UserRole.toString)
    ++ ". Your role: " ++ userRole.toString

/-- The staged `withRole(allowedRoles, handler)` gateway: extract the token
(absent gives 401 `MISSING_TOKEN`), verify it (failure gives 401
`INVALID_TOKEN`), check `hasPermission` (failure gives 403 via
`apiForbidden`, which `withRole` calls without a request id, so the builder
mints one — carried here as `requestId`), else hand `{id, role}` to the
handler. The gateway reads nothing but the header, the environment and the
clock: no storage state is in scope at any stage. -/
def withRoleGate (allowedRoles : List UserRole) (authHeader : Option String)
    (decode : String → TokenWire) (env : JwtEnv) (now : Nat)
    (requestId : String) : GatewayResult :=
  match extractTokenFromHeader authHeader with
  | none =>
      .missingToken
        "Missing authentication token. Please include 'Authorization: Bearer <token>' header."
  | some tokenString =>
      match verifyToken env (decode tokenString) now with
      | none =>
          .invalidToken "Invalid or expired token. Please log in again."
      | some payload =>
          if ¬ hasPermission payload.role allowedRoles then
            .forbidden ⟨403, "FORBIDDEN",
              forbiddenRoleMessage allowedRoles payload.role, requestId⟩
          else .proceed payload.userId payload.role

/-- The staged `withAuth(handler)` gateway (`lib/auth/middleware`): the same
first two stages as `withRoleGate`, with no role check; on success the
handler receives only the verified `userId`. -/
def withAuthGate (authHeader : Option String) (decode : String → TokenWire)
    (env : JwtEnv) (now : Nat) : GatewayResult :=
  match extractTokenFromHeader authHeader with
  | none =>
      .missingToken
        "Missing authentication token. Please include 'Authorization: Bearer <token>' header."
  | some tokenString =>
      match verifyToken env (decode tokenString) now with
      | none =>
          .invalidToken "Invalid or expired token. Please log in again."
      | some payload => .proceed payload.userId payload.role

/-! ## Reconciliation Engine — `POST /api/progress` (`progress/route.ts`) -/

/-- The CUID check of `createProgressSchema` (`progress.schema.ts`):
`/^c[a-z0-9]{24}$/`. -/
def isCuid (s : String) : Bool :=
  match s.data with
  | [] => false
  | c :: rest =>
      c == 'c' && rest.length == 24
        && rest.all (fun ch => ch.isLower || ch.isDigit)

/-- The sync request body after JSON parsing and the handler's
`score = null` default for an absent field: `score = none` models both
`null` and absence. -/
structure SyncRequest where
  userId : String
  lessonId : String
  completed : Bool
  score : Option Int
deriving DecidableEq, Repr

/-- `createProgressSchema.safeParse` on a body of the right JSON shape:
both ids must be CUIDs and a non-null score must be an integer in
`[0, 100]`. -/
def validSyncRequest (b : SyncRequest) : Bool :=
  isCuid b.userId && isCuid b.lessonId
    && (match b.score with
        | none => true
        | some s => 0 ≤ s && s ≤ 100)

/-- Outcome of the `POST /api/progress` handler body (after `withAuth` has
already verified the requester). -/
inductive SyncResponse where
  | validationError (requestId : String)
  | forbidden (resp : ForbiddenResponse)
  | created (record : ProgressRecord) (message : String) (requestId : String)
deriving DecidableEq, Repr

/-- The `withAuth`-wrapped `POST /api/progress` handler
(`progress/route.ts` lines 150-219): validate the body; reject with 403
("You can only update your own progress") when the submitted `userId` is
not the authenticated requester — there is no role-based bypass, the
handler only receives `authenticatedUserId`; otherwise upsert on the
composite key with full replacement and answer 201 with the stored row.
`now` is the server's receive time (`new Date()`). -/
def progressPOST (authenticatedUserId : String) (body : SyncRequest)
    (requestId : String) (now : Nat) (db : DB) : SyncResponse × DB :=
  if ¬ validSyncRequest body then (.validationError requestId, db)
  else if body.userId ≠ authenticatedUserId then
    (.forbidden ⟨403, "FORBIDDEN", "You can only update your own progress",
      requestId⟩, db)
  else
    let db' := progressUpsertReplace db body.userId body.lessonId
      body.completed body.score now
    (.created ⟨body.userId, body.lessonId, body.completed, body.score, now⟩
      "Progress synced successfully" requestId, db')

/-! ## Transactional Enrollment Workflow — `POST /api/users/enroll` -/

/-- The success payload of the enroll route: the upserted user's id and the
number of progress rows touched (`allLessons.length`, or `0` when there are
no lessons). -/
structure EnrollResult where
  userId : String
  progressInitialized : Nat
deriving DecidableEq, Repr

/-- Injectable storage faults for the enrollment transaction: `userFault`
makes the user upsert fail, `lessonFault l` makes the progress upsert for
lesson `l` fail (constraint violation, storage fault, ...). -/
structure FaultSpec where
  userFault : Bool
  lessonFault : String → Bool

/-- The fault-free run. -/
def FaultSpec.none : FaultSpec := ⟨false, fun _ => false⟩

/-- The body of `prisma.$transaction` in the enroll route
(`users/enroll/route.ts` lines 59-117): upsert the user by email, read all
lesson ids, and for each lesson run the create-only progress upsert; any
storage fault aborts with an error. Rows written before the fault exist
only in the transaction's working state, never outside it. -/
def enrollTx (newId name email hashedPassword : String) (now : Nat)
    (fault : FaultSpec) (db : DB) : Except String (EnrollResult × DB) :=
  if fault.userFault then .error "storage fault on user upsert"
  else
    let up := userUpsertByEmail db newId name email hashedPassword
    let allLessons := up.2.lessons
    match allLessons.foldlM (fun acc l =>
        if fault.lessonFault l then
          (Except.error "storage fault on progress upsert" : Except String DB)
        else Except.ok (progressUpsertKeep acc up.1.id l now)) up.2 with
    | .error e => .error e
    | .ok db2 => .ok (⟨up.1.id, allLessons.length⟩, db2)

/-- `POST /api/users/enroll` (after validation and password hashing):
`prisma.$transaction` commits the transaction body's state on success and
rolls every write back on failure — the caller's `catch` then reports an
error against the unchanged store. -/
def enroll (newId name email hashedPassword : String) (now : Nat)
    (fault : FaultSpec) (db : DB) : Except String EnrollResult × DB :=
  match enrollTx newId name email hashedPassword now fault db with
  | .ok (result, db') => (.ok result, db')
  | .error e => (.error e, db)

/-- The client-observable part of a progress row the idempotence claims talk
about: `completed` and `score` at a composite key. -/
def progressView (db : DB) (u l : String) : Option (Bool × Option Int) :=
  (findProgress db u l).map (fun r => (r.completed, r.score))

/-! ## Concrete fixtures for closed (witness / counterexample) theorems -/

/-- A concrete CUID (`c` + 24 chars of `[a-z0-9]`). -/
def cuidA : String := "caaaaaaaaaaaaaaaaaaaaaaaa"

/-- A second, distinct concrete CUID. -/
def cuidB : String := "cbbbbbbbbbbbbbbbbbbbbbbbb"

/-- A concrete lesson CUID. -/
def cuidL : String := "cdddddddddddddddddddddddd"

/-- A concrete JWT environment with a configured secret and the default 1h
TTL. -/
def envFix : JwtEnv := ⟨some "test-secret", 3600⟩

/-- A concrete store: one student, one lesson, and one progress row owned by
a user other than `cuidA`. -/
def dbFix : DB :=
  ⟨[⟨cuidA, "Alice", "a@x.com", "h0", UserRole.STUDENT⟩], [cuidL],
    [⟨cuidB, cuidL, false, Option.none, 0⟩]⟩

/-- The store reached from an empty store by one enroll of `a@x.com`
(minting id `cuidA`) followed by one sync marking the lesson completed with
score 90 — the "intervening sync" state of the enrollment idempotence
scenario. -/
def dbEnrolledSynced : DB :=
  (progressPOST cuidA ⟨cuidA, cuidL, true, some 90⟩ "r1" 5
    (enroll cuidA "Alice" "a@x.com" "h1" 1 FaultSpec.none
      ⟨[], [cuidL], []⟩).2).2

/-! ## Helper lemmas about the storage operations -/

theorem keyMatches_iff {u l : String} {r : ProgressRecord} :
    keyMatches u l r = true ↔ r.userId = u ∧ r.lessonId = l := by
  simp [keyMatches]

theorem keyMatches_replace (u l : String) (c : Bool) (s : Option Int)
    (t : Nat) (r : ProgressRecord) :
    keyMatches u l { r with completed := c, score := s, updatedAt := t } =
      keyMatches u l r := by
  simp [keyMatches]

theorem keyMatches_touch (u l : String) (t : Nat) (r : ProgressRecord) :
    keyMatches u l { r with updatedAt := t } = keyMatches u l r := by
  simp [keyMatches]

theorem findProgress_replace_self (db : DB) (u l : String) (c : Bool)
    (s : Option Int) (t : Nat) :
    findProgress (progressUpsertReplace db u l c s t) u l =
      some ⟨u, l, c, s, t⟩ := by
  unfold progressUpsertReplace
  cases hf : findProgress db u l with
  | none =>
      simp only [findProgress] at hf ⊢
      rw [List.find?_append, hf]
      simp [keyMatches]
  | some r =>
      simp only [findProgress] at hf ⊢
      rw [List.find?_map]
      have hcomp : (keyMatches u l ∘ fun r =>
          if keyMatches u l r then
            { r with completed := c, score := s, updatedAt := t }
          else r) = keyMatches u l := by
        funext x
        by_cases hx : keyMatches u l x = true <;>
          simp [Function.comp, hx, keyMatches_replace]
      rw [hcomp, hf]
      have hk := List.find?_some hf
      have hr := keyMatches_iff.mp hk
      simp [hk, hr.1, hr.2]

theorem progressUpsertReplace_idem (db : DB) (u l : String) (c : Bool)
    (s : Option Int) (t : Nat) :
    progressUpsertReplace (progressUpsertReplace db u l c s t) u l c s t =
      progressUpsertReplace db u l c s t := by
  have hall : ∀ r ∈ (progressUpsertReplace db u l c s t).progress,
      keyMatches u l r = true →
        r.completed = c ∧ r.score = s ∧ r.updatedAt = t := by
    unfold progressUpsertReplace
    cases hf : findProgress db u l with
    | none =>
        intro r hr hk
        simp only [findProgress] at hf
        rcases List.mem_append.mp hr with hmem | hmem
        · exact absurd hk (by simpa using List.find?_eq_none.mp hf r hmem)
        · simp only [List.mem_singleton] at hmem
          subst hmem; exact ⟨rfl, rfl, rfl⟩
    | some r₀ =>
        intro r hr hk
        simp only [List.mem_map] at hr
        obtain ⟨x, _, hx⟩ := hr
        by_cases hkx : keyMatches u l x = true
        · rw [if_pos hkx] at hx; subst hx; exact ⟨rfl, rfl, rfl⟩
        · rw [if_neg hkx] at hx; subst hx; exact absurd hk hkx
  conv_lhs => rw [progressUpsertReplace]
  rw [findProgress_replace_self]
  have hmap : ((progressUpsertReplace db u l c s t).progress.map fun r =>
      if keyMatches u l r then
        { r with completed := c, score := s, updatedAt := t }
      else r) = (progressUpsertReplace db u l c s t).progress := by
    have h2 := List.map_congr_left (l := (progressUpsertReplace db u l c s t).progress)
      (g := id)
      (f := fun r => if keyMatches u l r then
        { r with completed := c, score := s, updatedAt := t } else r)
      (by
        intro r hr
        by_cases hk : keyMatches u l r = true
        · obtain ⟨h1, h2, h3⟩ := hall r hr hk
          simp [hk, ← h1, ← h2, ← h3]
        · simp [hk])
    rw [h2, List.map_id]
  simp only [hmap]

theorem progressView_keep (db : DB) (u l : String) (t : Nat) (u' l' : String)
    {v : Bool × Option Int} (h : progressView db u' l' = some v) :
    progressView (progressUpsertKeep db u l t) u' l' = some v := by
  unfold progressUpsertKeep
  cases hf : findProgress db u l with
  | some r =>
      simp only [progressView, findProgress] at h ⊢
      rw [List.find?_map]
      have hcomp : (keyMatches u' l' ∘ fun r =>
          if keyMatches u l r then { r with updatedAt := t } else r) =
          keyMatches u' l' := by
        funext x
        by_cases hx : keyMatches u l x = true <;>
          simp [Function.comp, hx, keyMatches_touch]
      rw [hcomp]
      cases hfind : List.find? (keyMatches u' l') db.progress with
      | none => rw [hfind] at h; simp at h
      | some r' =>
          rw [hfind] at h
          simp at h
          by_cases hx : keyMatches u l r' = true <;>
            simp [hx, h]
  | none =>
      simp only [progressView, findProgress] at h ⊢
      rw [List.find?_append]
      cases hfind : List.find? (keyMatches u' l') db.progress with
      | none => rw [hfind] at h; simp at h
      | some r' => rw [hfind] at h; simpa using h

theorem progressUpsertKeep_users (db : DB) (u l : String) (t : Nat) :
    (progressUpsertKeep db u l t).users = db.users := by
  unfold progressUpsertKeep
  cases findProgress db u l <;> rfl

theorem progressUpsertKeep_lessons (db : DB) (u l : String) (t : Nat) :
    (progressUpsertKeep db u l t).lessons = db.lessons := by
  unfold progressUpsertKeep
  cases findProgress db u l <;> rfl

theorem userUpsertByEmail_lessons (db : DB) (newId name email pw : String) :
    (userUpsertByEmail db newId name email pw).2.lessons = db.lessons := by
  unfold userUpsertByEmail
  cases db.users.find? (fun u => u.email == email) <;> rfl

theorem userUpsertByEmail_progress (db : DB) (newId name email pw : String) :
    (userUpsertByEmail db newId name email pw).2.progress = db.progress := by
  unfold userUpsertByEmail
  cases db.users.find? (fun u => u.email == email) <;> rfl

/-- When a user with the email already exists, the user upsert takes its
update branch: the user list keeps its length, every user keeps their role,
and every user carrying the email ends up with the submitted name and
password hash. -/
theorem userUpsertByEmail_existing (db : DB) (newId name email pw : String)
    (h : ∃ u ∈ db.users, u.email = email) :
    (userUpsertByEmail db newId name email pw).2.users.length =
        db.users.length
    ∧ (userUpsertByEmail db newId name email pw).2.users.map User.role =
        db.users.map User.role
    ∧ ∀ u ∈ (userUpsertByEmail db newId name email pw).2.users,
        u.email = email → u.name = name ∧ u.password = pw := by
  obtain ⟨u₀, hu₀, he₀⟩ := h
  have hfind : (db.users.find? (fun u => u.email == email)).isSome := by
    rw [List.find?_isSome]
    exact ⟨u₀, hu₀, by simp [he₀]⟩
  unfold userUpsertByEmail
  cases hf : db.users.find? (fun u => u.email == email) with
  | none => rw [hf] at hfind; simp at hfind
  | some w =>
      refine ⟨by simp, ?_, ?_⟩
      · simp only [List.map_map]
        apply List.map_congr_left
        intro x _
        by_cases hx : x.email == email <;> simp [Function.comp, hx]
      · intro u hu hue
        simp only [List.mem_map] at hu
        obtain ⟨x, _, hx⟩ := hu
        by_cases hxe : x.email == email
        · rw [if_pos hxe] at hx; subst hx; exact ⟨rfl, rfl⟩
        · rw [if_neg hxe] at hx; subst hx
          exact absurd (by simp [hue]) hxe

theorem foldlM_step_fault (p : String → Bool) (g : DB → String → DB)
    (err : String) (L : List String) (h : ∃ l ∈ L, p l = true) (db : DB) :
    (L.foldlM (fun acc l =>
        if p l then (Except.error err : Except String DB)
        else Except.ok (g acc l)) db) = Except.error err := by
  induction L generalizing db with
  | nil => simp at h
  | cons a L ih =>
      rw [List.foldlM_cons]
      by_cases ha : p a = true
      · simp only [ha, reduceIte]; rfl
      · obtain ⟨l, hl, hpl⟩ := h
        rcases List.mem_cons.mp hl with rfl | hl'
        · exact absurd hpl ha
        · simp only [ha, if_neg, Bool.false_eq_true]
          simp only [reduceIte]
          exact ih ⟨l, hl', hpl⟩ (g db a)

theorem foldlM_step_ok (p : String → Bool) (g : DB → String → DB)
    (err : String) (L : List String) (h : ∀ l ∈ L, p l = false) (db : DB) :
    (L.foldlM (fun acc l =>
        if p l then (Except.error err : Except String DB)
        else Except.ok (g acc l)) db) = Except.ok (L.foldl g db) := by
  induction L generalizing db with
  | nil => rfl
  | cons a L ih =>
      rw [List.foldlM_cons]
      have ha := h a (by simp)
      simp only [ha, Bool.false_eq_true, reduceIte, List.foldl_cons]
      simpa using ih (fun l hl => h l (List.mem_cons_of_mem _ hl)) (g db a)

theorem foldl_keep_view (L : List String) (uid : String) (t : Nat) (db : DB)
    (u' l' : String) {v : Bool × Option Int}
    (h : progressView db u' l' = some v) :
    progressView (L.foldl (fun acc l => progressUpsertKeep acc uid l t) db)
      u' l' = some v := by
  induction L generalizing db with
  | nil => exact h
  | cons a L ih => exact ih _ (progressView_keep _ uid a t u' l' h)

theorem foldl_keep_users (L : List String) (uid : String) (t : Nat) (db : DB) :
    (L.foldl (fun acc l => progressUpsertKeep acc uid l t) db).users =
      db.users := by
  induction L generalizing db with
  | nil => rfl
  | cons a L ih => rw [List.foldl_cons, ih, progressUpsertKeep_users]

/-! ## Claim theorems -/

/-- Claim C1, counterexample: `canModifyResource` allows an ADMIN whose id
differs from the subject, but the sync handler rejects that very request
with 403 and performs no upsert — the handler checks strict ownership
(`userId !== authenticatedUserId`) and never consults `canModifyResource`
or the requester's role. -/
theorem sync_canModify_admin_cex :
    canModifyResource cuidA cuidB UserRole.ADMIN = true
    ∧ (progressPOST cuidA ⟨cuidB, cuidL, true, some 90⟩ "r" 5 dbFix).1 =
        .forbidden ⟨403, "FORBIDDEN",
          "You can only update your own progress", "r"⟩
    ∧ (progressPOST cuidA ⟨cuidB, cuidL, true, some 90⟩ "r" 5 dbFix).2 =
        dbFix := by
  refine ⟨by decide, ?_, ?_⟩ <;> decide

/-- Claim C1 as amended: for a well-formed sync request, the upsert is
performed exactly when the submitted `subjectId` equals the authenticated
requester's id; any other requester — regardless of role, ADMIN included,
since the handler receives only the requester's id — is rejected with a 403
while the store is untouched. -/
theorem sync_owner_only_authorization (auth : String) (body : SyncRequest)
    (rid : String) (now : Nat) (db : DB)
    (hv : validSyncRequest body = true) :
    (body.userId = auth →
      progressPOST auth body rid now db =
        (.created ⟨body.userId, body.lessonId, body.completed, body.score,
            now⟩ "Progress synced successfully" rid,
          progressUpsertReplace db body.userId body.lessonId body.completed
            body.score now))
    ∧ (body.userId ≠ auth →
      progressPOST auth body rid now db =
        (.forbidden ⟨403, "FORBIDDEN",
            "You can only update your own progress", rid⟩, db)) := by
  constructor <;> intro h <;> simp [progressPOST, hv, h]

/-- Witness for `sync_owner_only_authorization` at concrete inputs. -/
theorem sync_owner_only_authorization_witness :
    validSyncRequest ⟨cuidA, cuidL, true, some 90⟩ = true
    ∧ progressPOST cuidA ⟨cuidA, cuidL, true, some 90⟩ "r" 5 dbFix =
        (.created ⟨cuidA, cuidL, true, some 90, 5⟩
            "Progress synced successfully" "r",
          progressUpsertReplace dbFix cuidA cuidL true (some 90) 5) := by
  exact ⟨by decide,
    (sync_owner_only_authorization cuidA ⟨cuidA, cuidL, true, some 90⟩ "r" 5
      dbFix (by decide)).1 rfl⟩

/-- Claim C4: applying sync twice in immediate succession (same server
receive time) with identical arguments succeeds both times — the upsert
path never surfaces a duplicate-key failure — and the stored state after
the second call equals the state after the first. -/
theorem sync_idempotent (auth : String) (body : SyncRequest)
    (rid1 rid2 : String) (now : Nat) (db : DB)
    (hv : validSyncRequest body = true) (ha : body.userId = auth) :
    (∃ rec, (progressPOST auth body rid1 now db).1 =
        .created rec "Progress synced successfully" rid1)
    ∧ (∃ rec, (progressPOST auth body rid2 now
          (progressPOST auth body rid1 now db).2).1 =
        .created rec "Progress synced successfully" rid2)
    ∧ (progressPOST auth body rid2 now
          (progressPOST auth body rid1 now db).2).2 =
        (progressPOST auth body rid1 now db).2 := by
  subst ha
  refine ⟨⟨⟨body.userId, body.lessonId, body.completed, body.score, now⟩,
      by simp [progressPOST, hv]⟩,
    ⟨⟨body.userId, body.lessonId, body.completed, body.score, now⟩,
      by simp [progressPOST, hv]⟩, ?_⟩
  simp [progressPOST, hv, progressUpsertReplace_idem]

/-- Witness for `sync_idempotent` at concrete inputs. -/
theorem sync_idempotent_witness :
    validSyncRequest ⟨cuidA, cuidL, true, some 90⟩ = true
    ∧ (progressPOST cuidA ⟨cuidA, cuidL, true, some 90⟩ "r2" 5
          (progressPOST cuidA ⟨cuidA, cuidL, true, some 90⟩ "r1" 5 dbFix).2).2 =
        (progressPOST cuidA ⟨cuidA, cuidL, true, some 90⟩ "r1" 5 dbFix).2 := by
  exact ⟨by decide,
    (sync_idempotent cuidA ⟨cuidA, cuidL, true, some 90⟩ "r1" "r2" 5 dbFix
      (by decide) rfl).2.2⟩

/-- Claim C5: sync is a full-record replacement: after a well-formed,
authorized sync the stored row at the key carries exactly the submitted
`completed` and `score` and the server's receive time as `updatedAt` —
whatever was stored before (created fresh if absent, replaced wholesale if
present, never merged field by field, never a client-supplied time). -/
theorem sync_full_replacement (auth : String) (body : SyncRequest)
    (rid : String) (now : Nat) (db : DB)
    (hv : validSyncRequest body = true) (ha : body.userId = auth) :
    findProgress (progressPOST auth body rid now db).2 body.userId
        body.lessonId =
      some ⟨body.userId, body.lessonId, body.completed, body.score, now⟩ := by
  subst ha
  simp [progressPOST, hv, findProgress_replace_self]

/-- Witness for `sync_full_replacement`: `sync(u, l, true, 90)` then
`sync(u, l, false, null)` leaves `completed = false`, `score = null` with
the second receive time — not a merge. -/
theorem sync_full_replacement_witness :
    validSyncRequest ⟨cuidA, cuidL, false, Option.none⟩ = true
    ∧ findProgress (progressPOST cuidA ⟨cuidA, cuidL, false, Option.none⟩
          "r2" 7
          (progressPOST cuidA ⟨cuidA, cuidL, true, some 90⟩ "r1" 5 dbFix).2).2
        cuidA cuidL =
      some ⟨cuidA, cuidL, false, Option.none, 7⟩ := by
  exact ⟨by decide,
    sync_full_replacement cuidA ⟨cuidA, cuidL, false, Option.none⟩ "r2" 7
      (progressPOST cuidA ⟨cuidA, cuidL, true, some 90⟩ "r1" 5 dbFix).2
      (by decide) rfl⟩

/-- Claim C2: the enrollment workflow is atomic — when the transaction body
fails at any step (a fault on the user upsert, or a fault on the progress
upsert of any lesson `k` of the store), the route reports an error and the
visible state is exactly the pre-call state: no Principal row and no
Progress rows from the attempt survive. -/
theorem enroll_atomic_rollback (newId name email pw : String) (now : Nat)
    (fault : FaultSpec) (db : DB)
    (h : fault.userFault = true
        ∨ ∃ l ∈ db.lessons, fault.lessonFault l = true) :
    (∃ e, (enroll newId name email pw now fault db).1 = Except.error e)
    ∧ (enroll newId name email pw now fault db).2 = db := by
  rcases h with hu | hl
  · constructor
    · exact ⟨"storage fault on user upsert", by simp [enroll, enrollTx, hu]⟩
    · simp [enroll, enrollTx, hu]
  · by_cases hu : fault.userFault = true
    · constructor
      · exact ⟨"storage fault on user upsert", by simp [enroll, enrollTx, hu]⟩
      · simp [enroll, enrollTx, hu]
    · have hl' : ∃ l ∈ (userUpsertByEmail db newId name email pw).2.lessons,
          fault.lessonFault l = true := by
        rwa [userUpsertByEmail_lessons]
      have hfold := foldlM_step_fault fault.lessonFault
        (fun acc l => progressUpsertKeep acc
          (userUpsertByEmail db newId name email pw).1.id l now)
        "storage fault on progress upsert"
        (userUpsertByEmail db newId name email pw).2.lessons hl'
        (userUpsertByEmail db newId name email pw).2
      constructor
      · exact ⟨"storage fault on progress upsert",
          by simp [enroll, enrollTx, hu, hfold]⟩
      · simp [enroll, enrollTx, hu, hfold]

/-- Witness for `enroll_atomic_rollback`: a fault on the progress upsert of
the store's one lesson rolls the whole attempt back. -/
theorem enroll_atomic_rollback_witness :
    ((⟨false, fun l => l == cuidL⟩ : FaultSpec).userFault = true
      ∨ ∃ l ∈ dbFix.lessons, (fun l => l == cuidL) l = true)
    ∧ (enroll cuidB "Bob" "b@x.com" "h1" 3 ⟨false, fun l => l == cuidL⟩
        dbFix).2 = dbFix := by
  refine ⟨Or.inr (by decide), ?_⟩
  exact (enroll_atomic_rollback cuidB "Bob" "b@x.com" "h1" 3
    ⟨false, fun l => l == cuidL⟩ dbFix (Or.inr (by decide))).2

/-- Claim C3: enroll is idempotent and non-destructive — a fault-free
enroll never errors on any store; and on a store whose user table already
carries the email (the state after a first enroll, with or without
intervening syncs), it creates no second principal (the user count is
unchanged), leaves every user's role untouched, updates the existing
principal's name and password hash by its email key, and leaves the
`completed`/`score` of every existing progress record unchanged. -/
theorem enroll_idempotent_non_destructive (newId name email pw : String)
    (now : Nat) (db : DB) (h : ∃ u ∈ db.users, u.email = email) :
    (∀ db₂ : DB, ∃ r,
      (enroll newId name email pw now FaultSpec.none db₂).1 = Except.ok r)
    ∧ (enroll newId name email pw now FaultSpec.none db).2.users.length =
        db.users.length
    ∧ (enroll newId name email pw now FaultSpec.none db).2.users.map
        User.role = db.users.map User.role
    ∧ (∀ u ∈ (enroll newId name email pw now FaultSpec.none db).2.users,
        u.email = email → u.name = name ∧ u.password = pw)
    ∧ (∀ u' l' (v : Bool × Option Int), progressView db u' l' = some v →
        progressView (enroll newId name email pw now FaultSpec.none db).2
          u' l' = some v) := by
  have hrun : ∀ db₂ : DB,
      enroll newId name email pw now FaultSpec.none db₂ =
        (Except.ok ⟨(userUpsertByEmail db₂ newId name email pw).1.id,
            (userUpsertByEmail db₂ newId name email pw).2.lessons.length⟩,
          (userUpsertByEmail db₂ newId name email pw).2.lessons.foldl
            (fun acc l => progressUpsertKeep acc
              (userUpsertByEmail db₂ newId name email pw).1.id l now)
            (userUpsertByEmail db₂ newId name email pw).2) := by
    intro db₂
    have hfold := foldlM_step_ok (fun _ => false)
      (fun acc l => progressUpsertKeep acc
        (userUpsertByEmail db₂ newId name email pw).1.id l now)
      "storage fault on progress upsert"
      (userUpsertByEmail db₂ newId name email pw).2.lessons
      (fun _ _ => rfl) (userUpsertByEmail db₂ newId name email pw).2
    simp only [Bool.false_eq_true, reduceIte] at hfold
    simp [enroll, enrollTx, FaultSpec.none, hfold]
  have hU := userUpsertByEmail_existing db newId name email pw h
  refine ⟨fun db₂ => ⟨_, by rw [hrun db₂]⟩, ?_, ?_, ?_, ?_⟩
  · rw [hrun db, foldl_keep_users]; exact hU.1
  · rw [hrun db, foldl_keep_users]; exact hU.2.1
  · intro u hu
    rw [hrun db, foldl_keep_users] at hu
    exact hU.2.2 u hu
  · intro u' l' v hv
    rw [hrun db]
    apply foldl_keep_view
    have : progressView (userUpsertByEmail db newId name email pw).2 u' l' =
        progressView db u' l' := by
      simp [progressView, findProgress, userUpsertByEmail_progress]
    rw [this]; exact hv

/-- Witness for `enroll_idempotent_non_destructive`: re-enrolling the
already-enrolled `a@x.com` after an intervening sync marked the lesson
completed keeps one principal and keeps `completed = true, score = 90`. -/
theorem enroll_idempotent_witness :
    (∃ u ∈ dbEnrolledSynced.users, u.email = "a@x.com")
    ∧ progressView (enroll cuidB "Alice Again" "a@x.com" "h2" 9
          FaultSpec.none dbEnrolledSynced).2 cuidA cuidL =
        some (true, some 90)
    ∧ (enroll cuidB "Alice Again" "a@x.com" "h2" 9 FaultSpec.none
          dbEnrolledSynced).2.users.length =
        dbEnrolledSynced.users.length := by
  have h := enroll_idempotent_non_destructive cuidB "Alice Again" "a@x.com"
    "h2" 9 dbEnrolledSynced (by decide)
  exact ⟨by decide, h.2.2.2.2 cuidA cuidL (true, some 90) (by decide), h.2.1⟩

/-- Claim C6, counterexample: even with the secret configured and the token
fresh, the round trip fails for the empty subject id — `verifyToken`'s
falsy presence check (`!decoded.userId`) rejects the empty string, so
verification of a just-issued token for subject `""` returns null instead
of its claims. -/
theorem token_roundtrip_empty_id_cex :
    generateToken envFix "" UserRole.STUDENT 0 =
      Except.ok (.token .HS256 ⟨some "", some UserRole.STUDENT, 0, 3600⟩
        ("test-secret", ⟨some "", some UserRole.STUDENT, 0, 3600⟩))
    ∧ verifyToken envFix
        (.token .HS256 ⟨some "", some UserRole.STUDENT, 0, 3600⟩
          ("test-secret", ⟨some "", some UserRole.STUDENT, 0, 3600⟩)) 0 =
      none := by
  constructor <;> rfl

/-- Claim C6 as amended: for every non-empty subject id and every role,
with the signing secret configured, verifying the token right after issuing
it (any verification instant before expiry) succeeds and returns claims
with the same subject id and role. -/
theorem token_roundtrip (env : JwtEnv) (s id : String) (role : UserRole)
    (now t : Nat) (hs : env.secret = some s) (hid : id ≠ "")
    (ht : t < now + env.ttl) :
    generateToken env id role now =
      Except.ok (.token .HS256 ⟨some id, some role, now, now + env.ttl⟩
        (s, ⟨some id, some role, now, now + env.ttl⟩))
    ∧ verifyToken env
        (.token .HS256 ⟨some id, some role, now, now + env.ttl⟩
          (s, ⟨some id, some role, now, now + env.ttl⟩)) t =
      some ⟨id, role, now, now + env.ttl⟩ := by
  have hexp : ¬ (now + env.ttl ≤ t) := Nat.not_le.mpr ht
  constructor
  · simp [generateToken, hs]
  · simp [verifyToken, jwtVerifyCore, hs, hid, hexp]

/-- Witness for `token_roundtrip` at concrete inputs. -/
theorem token_roundtrip_witness :
    envFix.secret = some "test-secret" ∧ ("u1" : String) ≠ ""
    ∧ (0 : Nat) < 0 + envFix.ttl
    ∧ verifyToken envFix
        (.token .HS256 ⟨some "u1", some UserRole.ADMIN, 0, 0 + envFix.ttl⟩
          ("test-secret", ⟨some "u1", some UserRole.ADMIN, 0, 0 + envFix.ttl⟩))
        0 =
      some ⟨"u1", UserRole.ADMIN, 0, 0 + envFix.ttl⟩ := by
  exact ⟨rfl, by decide, by decide,
    (token_roundtrip envFix "test-secret" "u1" UserRole.ADMIN 0 0 rfl
      (by decide) (by decide)).2⟩

/-- An expired but correctly signed token fixture: signed with the fixture
secret over its own payload, `exp = 1`. -/
def tokExpiredSigned : TokenWire :=
  .token .HS256 ⟨some "u1", some UserRole.STUDENT, 0, 1⟩
    ("test-secret", ⟨some "u1", some UserRole.STUDENT, 0, 1⟩)

/-- An expired and tampered token fixture: its signature was computed over
a different payload, `exp = 1`. -/
def tokExpiredTampered : TokenWire :=
  .token .HS256 ⟨some "u1", some UserRole.STUDENT, 0, 1⟩
    ("test-secret", ⟨some "u1", some UserRole.ADMIN, 0, 1⟩)

/-- Claim C7, counterexample: the repo's `verifyToken` surfaces no
distinguished failure causes — a malformed token and an expired, correctly
signed token produce the identical observable result (`null`); and the
underlying `jwt.verify` checks the signature before expiry, so an expired
token with an invalid signature fails with the signature cause, not the
Expired cause. -/
theorem verify_cause_collapse_cex :
    jwtVerifyCore "test-secret" (.malformed "garbage") 5 =
      Except.error VerifyError.malformed
    ∧ jwtVerifyCore "test-secret" tokExpiredSigned 5 =
        Except.error VerifyError.expired
    ∧ jwtVerifyCore "test-secret" tokExpiredTampered 5 =
        Except.error VerifyError.invalidSignature
    ∧ verifyToken envFix (.malformed "garbage") 5 =
        verifyToken envFix tokExpiredSigned 5
    ∧ verifyToken envFix tokExpiredSigned 5 = none := by
  refine ⟨rfl, rfl, rfl, rfl, rfl⟩

/-- Claim C7 as amended: `verifyToken` collapses every failure to null; any
structurally parsed token whose `exp` is at or before the verification
instant yields null whatever its signature, and when the algorithm and
signature are in fact valid the internal `jwt.verify` failure is the
Expired cause; malformed tokens also yield null. -/
theorem verify_expired_always_null (env : JwtEnv) (s : String) (alg : Alg)
    (payload : JWTPayload) (sig : String × JWTPayload) (now : Nat)
    (hs : env.secret = some s) (hexp : payload.exp ≤ now) :
    verifyToken env (.token alg payload sig) now = none
    ∧ (alg = .HS256 → sig = (s, payload) →
        jwtVerifyCore s (.token alg payload sig) now =
          Except.error VerifyError.expired)
    ∧ (∀ raw, verifyToken env (.malformed raw) now = none) := by
  refine ⟨?_, ?_, ?_⟩
  · simp only [verifyToken, hs]
    unfold jwtVerifyCore
    by_cases h1 : alg ≠ Alg.HS256
    · simp [h1]
    · by_cases h2 : sig ≠ (s, payload)
      · simp [h1, h2]
      · simp [h1, h2, hexp]
  · intro h1 h2
    subst h1; subst h2
    simp [jwtVerifyCore, hexp]
  · intro raw
    simp [verifyToken, jwtVerifyCore, hs]

/-- Witness for `verify_expired_always_null` at concrete inputs. -/
theorem verify_expired_always_null_witness :
    envFix.secret = some "test-secret"
    ∧ (⟨some "u1", some UserRole.STUDENT, 0, 1⟩ : JWTPayload).exp ≤ 5
    ∧ verifyToken envFix tokExpiredSigned 5 = none
    ∧ jwtVerifyCore "test-secret" tokExpiredSigned 5 =
        Except.error VerifyError.expired := by
  have h := verify_expired_always_null envFix "test-secret" Alg.HS256
    ⟨some "u1", some UserRole.STUDENT, 0, 1⟩
    ("test-secret", ⟨some "u1", some UserRole.STUDENT, 0, 1⟩) 5 rfl
    (by decide)
  exact ⟨rfl, by decide, h.1, h.2.1 rfl rfl⟩

/-- Structural characterization of the modelled `jwt.verify` success case:
it returns a payload exactly when the token is an HS256-headed structure
whose signature is the MAC of the configured secret over that same payload
and whose `exp` lies strictly after the verification instant. -/
theorem jwtVerifyCore_ok_iff (s : String) (tok : TokenWire) (now : Nat)
    (payload : JWTPayload) :
    jwtVerifyCore s tok now = Except.ok payload ↔
      tok = .token .HS256 payload (s, payload) ∧ now < payload.exp := by
  cases tok with
  | malformed raw => simp [jwtVerifyCore]
  | token alg pl sig =>
      simp only [jwtVerifyCore]
      by_cases h1 : alg ≠ Alg.HS256
      · rw [if_pos h1]
        simp only [TokenWire.token.injEq]
        exact ⟨fun h => absurd h (by simp), fun h => absurd h.1.1 h1⟩
      · push_neg at h1
        subst h1
        rw [if_neg (by simp)]
        by_cases h2 : sig ≠ (s, pl)
        · rw [if_pos h2]
          simp only [TokenWire.token.injEq]
          constructor
          · intro h; exact absurd h (by simp)
          · rintro ⟨⟨-, hpl, hsig⟩, -⟩
            subst hpl
            exact absurd hsig h2
        · push_neg at h2
          subst h2
          by_cases h3 : pl.exp ≤ now
          · rw [if_neg (by simp), if_pos h3]
            simp only [TokenWire.token.injEq]
            constructor
            · intro h; exact absurd h (by simp)
            · rintro ⟨⟨-, hpl, -⟩, hexp⟩
              subst hpl
              omega
          · rw [if_neg (by simp), if_neg h3]
            constructor
            · intro h
              rw [Except.ok.injEq] at h
              subst h
              exact ⟨rfl, by omega⟩
            · rintro ⟨htok, -⟩
              rw [TokenWire.token.injEq] at htok
              exact congrArg Except.ok htok.2.1

/-- Claim C10: `verifyToken` is a total function into an option type (the
source wraps `jwt.verify` in a catch-all): it yields claims exactly when
the secret is configured, the token parses to an HS256-headed structure,
the signature is the one computed with the configured secret over the
payload, the verification instant is before `exp`, and the payload carries
a truthy `userId` (present and non-empty) and a `role`; in every other
case — unconfigured secret, malformed, tampered, expired, or a field
missing — it returns null. -/
theorem verifyToken_total_characterization (env : JwtEnv) (tok : TokenWire)
    (t : Nat) (p : VerifiedClaims) :
    verifyToken env tok t = some p ↔
      ∃ s payload, env.secret = some s
        ∧ tok = .token .HS256 payload (s, payload)
        ∧ t < payload.exp
        ∧ payload.userId = some p.userId ∧ p.userId ≠ ""
        ∧ payload.role = some p.role
        ∧ payload.iat = p.iat ∧ payload.exp = p.exp := by
  cases henv : env.secret with
  | none =>
      have hvt : verifyToken env tok t = none := by
        simp [verifyToken, henv]
      rw [hvt]
      constructor
      · intro h; cases h
      · rintro ⟨s, payload, hs, -⟩
        cases hs
  | some s =>
      cases hcore : jwtVerifyCore s tok t with
      | error e =>
          have hvt : verifyToken env tok t = none := by
            simp [verifyToken, henv, hcore]
          rw [hvt]
          constructor
          · intro h; cases h
          · rintro ⟨s', payload, hs', htok, hexp, -⟩
            rw [Option.some_inj] at hs'
            subst hs'
            have hok : jwtVerifyCore s tok t = Except.ok payload :=
              (jwtVerifyCore_ok_iff s tok t payload).mpr ⟨htok, hexp⟩
            rw [hcore] at hok; cases hok
      | ok decoded =>
          have hstruct := (jwtVerifyCore_ok_iff s tok t decoded).mp hcore
          cases hu : decoded.userId with
          | none =>
              have hvt : verifyToken env tok t = none := by
                simp [verifyToken, henv, hcore, hu]
              rw [hvt]
              constructor
              · intro h; cases h
              · rintro ⟨s', payload, hs', htok, hexp, hu', -⟩
                rw [Option.some_inj] at hs'
                subst hs'
                have hok : jwtVerifyCore s tok t = Except.ok payload :=
                  (jwtVerifyCore_ok_iff s tok t payload).mpr ⟨htok, hexp⟩
                rw [hcore, Except.ok.injEq] at hok
                subst hok
                rw [hu] at hu'; cases hu'
          | some uid =>
              cases hr : decoded.role with
              | none =>
                  have hvt : verifyToken env tok t = none := by
                    simp [verifyToken, henv, hcore, hu, hr]
                  rw [hvt]
                  constructor
                  · intro h; cases h
                  · rintro ⟨s', payload, hs', htok, hexp, -, -, hr', -⟩
                    rw [Option.some_inj] at hs'
                    subst hs'
                    have hok : jwtVerifyCore s tok t = Except.ok payload :=
                      (jwtVerifyCore_ok_iff s tok t payload).mpr ⟨htok, hexp⟩
                    rw [hcore, Except.ok.injEq] at hok
                    subst hok
                    rw [hr] at hr'; cases hr'
              | some r =>
                  by_cases hne : uid = ""
                  · have hvt : verifyToken env tok t = none := by
                      simp [verifyToken, henv, hcore, hu, hr, hne]
                    rw [hvt]
                    constructor
                    · intro h; cases h
                    · rintro ⟨s', payload, hs', htok, hexp, hu', hne', -⟩
                      rw [Option.some_inj] at hs'
                      subst hs'
                      have hok : jwtVerifyCore s tok t = Except.ok payload :=
                        (jwtVerifyCore_ok_iff s tok t payload).mpr
                          ⟨htok, hexp⟩
                      rw [hcore, Except.ok.injEq] at hok
                      subst hok
                      rw [hu, Option.some_inj] at hu'
                      exact absurd (by rw [← hu', hne]) hne'
                  · have hvt : verifyToken env tok t =
                        some ⟨uid, r, decoded.iat, decoded.exp⟩ := by
                      simp [verifyToken, henv, hcore, hu, hr, hne]
                    rw [hvt]
                    constructor
                    · intro h
                      rw [Option.some_inj] at h
                      refine ⟨s, decoded, rfl, hstruct.1, hstruct.2,
                        ?_, ?_, ?_, ?_, ?_⟩ <;> rw [← h] <;>
                        simp [hu, hr, hne]
                    · rintro ⟨s', payload, hs', htok, hexp, hu', hne', hr',
                        hi, he⟩
                      rw [Option.some_inj] at hs'
                      subst hs'
                      have hok : jwtVerifyCore s tok t = Except.ok payload :=
                        (jwtVerifyCore_ok_iff s tok t payload).mpr
                          ⟨htok, hexp⟩
                      rw [hcore, Except.ok.injEq] at hok
                      subst hok
                      rw [hu, Option.some_inj] at hu'
                      rw [hr, Option.some_inj] at hr'
                      rw [Option.some_inj]
                      cases p
                      simp only [VerifiedClaims.mk.injEq]
                      exact ⟨hu', hr', hi, he⟩
theorem splitOnSpace_ne_nil (l : List Char) : splitOnSpace l ≠ [] := by
  cases l with
  | nil => simp [splitOnSpace]
  | cons c rest =>
      simp only [splitOnSpace]
      by_cases hc : c = ' '
      · simp [hc]
      · rw [if_neg hc]
        cases h : splitOnSpace rest <;> simp

theorem splitOnSpace_single (l w : List Char) :
    splitOnSpace l = [w] ↔ l = w ∧ ' ' ∉ w := by
  induction l generalizing w with
  | nil =>
      simp only [splitOnSpace, List.cons.injEq, and_true]
      constructor
      · intro h; exact ⟨h, by rw [← h]; simp⟩
      · exact fun h => h.1
  | cons c rest ih =>
      simp only [splitOnSpace]
      by_cases hc : c = ' '
      · rw [if_pos hc]
        constructor
        · intro h
          rw [List.cons_eq_cons] at h
          exact absurd h.2 (splitOnSpace_ne_nil rest)
        · rintro ⟨hl, hw⟩
          subst hl
          exact absurd (by simp [hc]) hw
      · rw [if_neg hc]
        cases hsp : splitOnSpace rest with
        | nil => exact absurd hsp (splitOnSpace_ne_nil rest)
        | cons w' ws =>
            constructor
            · intro h
              rw [List.cons_eq_cons] at h
              obtain ⟨hw, hws⟩ := h
              have hr := (ih w').mp (by rw [hsp, hws])
              refine ⟨by rw [← hw, hr.1], ?_⟩
              rw [← hw]
              simp only [List.mem_cons, not_or]
              exact ⟨fun h => hc h.symm, hr.2⟩
            · rintro ⟨hl, hw⟩
              cases w with
              | nil => exact absurd hl (by simp)
              | cons x w₀ =>
                  rw [List.cons_eq_cons] at hl
                  obtain ⟨hx, hrest⟩ := hl
                  simp only [List.mem_cons, not_or] at hw
                  have : splitOnSpace rest = [w₀] :=
                    (ih w₀).mpr ⟨hrest, hw.2⟩
                  rw [hsp] at this
                  rw [List.cons_eq_cons] at this
                  rw [List.cons_eq_cons]
                  exact ⟨by rw [hx, this.1], this.2⟩

theorem splitOnSpace_pair (l a b : List Char) :
    splitOnSpace l = [a, b] ↔
      l = a ++ ' ' :: b ∧ ' ' ∉ a ∧ ' ' ∉ b := by
  induction l generalizing a with
  | nil =>
      simp only [splitOnSpace]
      constructor
      · intro h; simp at h
      · rintro ⟨h, -⟩
        exact absurd h.symm (by simp)
  | cons c rest ih =>
      simp only [splitOnSpace]
      by_cases hc : c = ' '
      · rw [if_pos hc]
        constructor
        · intro h
          rw [List.cons_eq_cons] at h
          obtain ⟨ha, hb⟩ := h
          have hr := (splitOnSpace_single rest b).mp hb
          subst hc
          exact ⟨by rw [← ha, hr.1]; rfl, by rw [← ha]; simp, hr.2⟩
        · rintro ⟨hl, hna, hnb⟩
          cases a with
          | nil =>
              simp only [List.nil_append] at hl
              rw [List.cons_eq_cons] at hl
              rw [List.cons_eq_cons]
              exact ⟨rfl, (splitOnSpace_single rest b).mpr ⟨hl.2, hnb⟩⟩
          | cons x a₀ =>
              rw [List.cons_append, List.cons_eq_cons] at hl
              have hx : x = ' ' := hl.1.symm.trans hc
              exact absurd (by rw [hx]; exact List.mem_cons_self ' ' a₀) hna
      · rw [if_neg hc]
        cases hsp : splitOnSpace rest with
        | nil => exact absurd hsp (splitOnSpace_ne_nil rest)
        | cons w' ws =>
            constructor
            · intro h
              rw [List.cons_eq_cons] at h
              obtain ⟨ha, hws⟩ := h
              have hr := (ih w').mp (by rw [hsp, hws])
              refine ⟨?_, ?_, hr.2.2⟩
              · rw [← ha, List.cons_append, hr.1]
              · rw [← ha]
                simp only [List.mem_cons, not_or]
                exact ⟨fun h => hc h.symm, hr.2.1⟩
            · rintro ⟨hl, hna, hnb⟩
              cases a with
              | nil =>
                  simp only [List.nil_append] at hl
                  rw [List.cons_eq_cons] at hl
                  exact absurd hl.1 hc
              | cons x a₀ =>
                  rw [List.cons_append, List.cons_eq_cons] at hl
                  obtain ⟨hx, hrest⟩ := hl
                  simp only [List.mem_cons, not_or] at hna
                  have : splitOnSpace rest = [a₀, b] :=
                    (ih a₀).mpr ⟨hrest, hna.2, hnb⟩
                  rw [hsp] at this
                  rw [List.cons_eq_cons] at this
                  rw [List.cons_eq_cons]
                  exact ⟨by rw [hx, this.1], this.2⟩

/-- Claim C8: `extractTokenFromHeader` yields a token exactly when the
header value is present and has the two-part form `scheme ++ " " ++ token`
with the scheme lowercasing to `"bearer"` (neither part containing a
space); a missing header — and hence every other shape, by the iff — yields
absent (`null`), never an error. -/
theorem extract_header_two_part_form :
    extractTokenFromHeader none = none
    ∧ ∀ (h : String) (tok : String),
        extractTokenFromHeader (some h) = some tok ↔
          ∃ scheme : String,
            h.data = scheme.data ++ ' ' :: tok.data
            ∧ ' ' ∉ scheme.data ∧ ' ' ∉ tok.data
            ∧ scheme.data.map Char.toLower = "bearer".data := by
  refine ⟨rfl, ?_⟩
  intro h tok
  simp only [extractTokenFromHeader]
  by_cases hemp : h = ""
  · rw [if_pos hemp]
    constructor
    · intro hx; cases hx
    · rintro ⟨scheme, hdata, -⟩
      subst hemp
      exact absurd hdata.symm (by simp)
  · rw [if_neg hemp]
    cases hsp : splitOnSpace h.data with
    | nil => exact absurd hsp (splitOnSpace_ne_nil h.data)
    | cons p0 ps =>
        cases ps with
        | nil =>
            constructor
            · intro hx; cases hx
            · rintro ⟨scheme, hdata, hna, hnb, -⟩
              have := (splitOnSpace_pair h.data scheme.data tok.data).mpr
                ⟨hdata, hna, hnb⟩
              rw [hsp] at this
              cases this
        | cons p1 ps' =>
            cases ps' with
            | cons _ _ =>
                constructor
                · intro hx; cases hx
                · rintro ⟨scheme, hdata, hna, hnb, -⟩
                  have := (splitOnSpace_pair h.data scheme.data tok.data).mpr
                    ⟨hdata, hna, hnb⟩
                  rw [hsp] at this
                  rw [List.cons_eq_cons] at this
                  rcases this with ⟨-, this⟩
                  rw [List.cons_eq_cons] at this
                  exact absurd this.2 (by simp)
            | nil =>
                have hpair := (splitOnSpace_pair h.data p0 p1).mp hsp
                change (if p0.map Char.toLower = "bearer".data then
                    some (String.mk p1) else none) = some tok ↔ _
                by_cases hb : p0.map Char.toLower = "bearer".data
                · rw [if_pos hb]
                  constructor
                  · intro hx
                    rw [Option.some_inj] at hx
                    refine ⟨⟨p0⟩, ?_, hpair.2.1, ?_, hb⟩
                    · rw [← hx]; exact hpair.1
                    · rw [← hx]; exact hpair.2.2
                  · rintro ⟨scheme, hdata, hna, hnb, -⟩
                    have := (splitOnSpace_pair h.data scheme.data
                      tok.data).mpr ⟨hdata, hna, hnb⟩
                    rw [hsp] at this
                    rw [List.cons_eq_cons] at this
                    rcases this with ⟨-, this⟩
                    rw [List.cons_eq_cons] at this
                    rw [Option.some_inj]
                    cases tok
                    exact congrArg String.mk this.1
                · rw [if_neg hb]
                  constructor
                  · intro hx; cases hx
                  · rintro ⟨scheme, hdata, hna, hnb, hlow⟩
                    have := (splitOnSpace_pair h.data scheme.data
                      tok.data).mpr ⟨hdata, hna, hnb⟩
                    rw [hsp] at this
                    rw [List.cons_eq_cons] at this
                    exact absurd (this.1 ▸ hlow) hb

/-- Claim C9: 403 responses leak nothing about the target resource. For the
sync route, two requests by the same principal that differ only in the
targeted owner and in the store contents (resource existing or not) produce
byte-identical 403 content — a fixed message, code `FORBIDDEN` — and the
store is untouched. For the `withRole` gateway, every 403 it emits is fully
determined by the allowed role set, the verified principal's own role and
the request id: the gateway reads no storage state at any stage, so the
response cannot depend on resource existence or ownership. -/
theorem forbidden_resource_noninterference (auth : String)
    (b1 b2 : SyncRequest) (rid : String) (now1 now2 : Nat) (db1 db2 : DB)
    (hv1 : validSyncRequest b1 = true) (hv2 : validSyncRequest b2 = true)
    (h1 : b1.userId ≠ auth) (h2 : b2.userId ≠ auth) :
    (progressPOST auth b1 rid now1 db1).1 =
        (progressPOST auth b2 rid now2 db2).1
    ∧ (progressPOST auth b1 rid now1 db1).1 =
        .forbidden ⟨403, "FORBIDDEN",
          "You can only update your own progress", rid⟩
    ∧ (progressPOST auth b1 rid now1 db1).2 = db1
    ∧ ∀ (allowed : List UserRole) (hdr : Option String)
        (decode : String → TokenWire) (env : JwtEnv) (now : Nat)
        (rid' : String) (resp : ForbiddenResponse),
        withRoleGate allowed hdr decode env now rid' = .forbidden resp →
        ∃ claims, (extractTokenFromHeader hdr).bind
            (fun ts => verifyToken env (decode ts) now) = some claims
          ∧ resp = ⟨403, "FORBIDDEN",
              forbiddenRoleMessage allowed claims.role, rid'⟩ := by
  refine ⟨?_, ?_, ?_, ?_⟩
  · simp [progressPOST, hv1, hv2, h1, h2]
  · simp [progressPOST, hv1, h1]
  · simp [progressPOST, hv1, h1]
  · intro allowed hdr decode env now rid' resp hgate
    unfold withRoleGate at hgate
    cases hext : extractTokenFromHeader hdr with
    | none => rw [hext] at hgate; cases hgate
    | some ts =>
        rw [hext] at hgate
        dsimp only at hgate
        cases hver : verifyToken env (decode ts) now with
        | none => rw [hver] at hgate; cases hgate
        | some claims =>
            rw [hver] at hgate
            dsimp only at hgate
            by_cases hperm : hasPermission claims.role allowed = true
            · rw [if_neg (by simp [hperm])] at hgate
              cases hgate
            · rw [if_pos (by simp [hperm])] at hgate
              rw [GatewayResult.forbidden.injEq] at hgate
              exact ⟨claims, by simp [hver], hgate.symm⟩

/-- Witness for `forbidden_resource_noninterference`: the same non-owner
request against two stores — one where the targeted progress row exists,
one empty — and against two different owners yields the identical 403. -/
theorem forbidden_resource_noninterference_witness :
    validSyncRequest ⟨cuidB, cuidL, true, some 90⟩ = true
    ∧ (cuidB ≠ cuidA ∧ cuidL ≠ cuidA)
    ∧ (progressPOST cuidA ⟨cuidB, cuidL, true, some 90⟩ "r" 5 dbFix).1 =
        (progressPOST cuidA ⟨cuidL, cuidL, true, some 90⟩ "r" 9
          ⟨[], [], []⟩).1 := by
  refine ⟨by decide, ⟨by decide, by decide⟩, ?_⟩
  exact (forbidden_resource_noninterference cuidA
    ⟨cuidB, cuidL, true, some 90⟩ ⟨cuidL, cuidL, true, some 90⟩ "r" 5 9
    dbFix ⟨[], [], []⟩ (by decide) (by decide) (by decide) (by decide)).1

end Orbit
